import Mathlib

/-!
Shallow embedding of the `EnergyMaintenanceFHE` contract (src/unnamed/part_000).
Mappings are total functions with Solidity's zero defaults; `euint32` ciphertext
handles are modelled by their 32-bit cleartext values; every public function is
embedded as a state transformer `... → ContractState × Option Err` that returns
the state reached at the exit point together with the error raised, if any
(a `revert` in the source returns the state accumulated so far, which lets us
prove that every error path leaves the state unchanged).
-/

namespace EnergyMaintenanceFHE

/-- Addresses are modelled as natural numbers; `0` is the zero address. -/
abbrev Address := Nat

/-- The `euint32` modulus: encrypted 32-bit values live in `[0, 2^32)`. -/
def M32 : Nat := 2 ^ 32

/-- Modelled from the spec: the external capability `Add(Handle, Handle) -> Handle`
(spec section 6); `FHE.add` on `euint32` is 32-bit wrapping addition. -/
def fheAdd (a b : Nat) : Nat := (a + b) % M32

/-- Modelled from the spec: the external capability
`GreaterOrEqual(Handle, Handle) -> BoolHandle` (spec section 6);
`FHE.ge a b` holds when `a ≥ b`. -/
def fheGe (a b : Nat) : Bool := decide (b ≤ a)

/-- Modelled from the spec: the external capability
`Select(BoolHandle, Handle, Handle) -> Handle` (spec section 6): the control
comes first and selects the first data operand when true. -/
def fheSelect (control : Bool) (a b : Nat) : Nat := if control then a else b

/-- The source calls
`FHE.select(currentBatch.encryptedMaxTemperature, encryptedTemperature, isGreater)`
(src/unnamed/part_000 line 147), passing the `ebool` control in the **third**
position even though the imported FHE library and the spec's capability
interface declare the control **first**.  This embedding keeps the two data
operands in the source's positions (the first operand is chosen when the
control is true, as in `fheSelect`) and reads the trailing `ebool` as the
control. -/
def selectAsWritten (a b : Nat) (control : Bool) : Nat := fheSelect control a b

/-- The contract's custom errors (src/unnamed/part_000 lines 47-56). -/
inductive Err where
  | NotOwner
  | NotProvider
  | PausedState
  | CooldownActive
  | BatchNotOpen
  | BatchOpen
  | InvalidBatch
  | ReplayAttempt
  | StateMismatch
  | DecryptionFailed
deriving DecidableEq, Repr

/-- Modelled from the spec: the integrity digest.  The source computes
`keccak256(abi.encode(cts, address(this)))`; keccak-256 is an external
primitive, modelled as the injective encoding of its preimage: the list of
ciphertext handles paired with the contract's own address. -/
abbrev Digest := List Nat × Address

/-- `_hashCiphertexts(cts) = keccak256(abi.encode(cts, address(this)))`
(src/unnamed/part_000 lines 199-201), under the injective-digest model. -/
def hashCiphertexts (cts : List Nat) (self : Address) : Digest := (cts, self)

/-- A `Batch` record (src/unnamed/part_000 lines 18-24).  The Solidity field
`open` is a Lean keyword and is embedded as `isOpen`. -/
structure Batch where
  id : Nat
  isOpen : Bool
  dataCount : Nat
  encryptedTotalVibration : Nat
  encryptedMaxTemperature : Nat
deriving DecidableEq, Repr

/-- The Solidity default value of a `Batch` (all fields zero). -/
def defaultBatch : Batch :=
  { id := 0, isOpen := false, dataCount := 0,
    encryptedTotalVibration := 0, encryptedMaxTemperature := 0 }

/-- A `DecryptionContext` record (src/unnamed/part_000 lines 28-32). -/
structure DecryptionContext where
  batchId : Nat
  stateHash : Digest
  processed : Bool
deriving DecidableEq, Repr

/-- The Solidity default value of a `DecryptionContext`: `batchId = 0`,
zero hash, `processed = false`. -/
def defaultContext : DecryptionContext :=
  { batchId := 0, stateHash := ([], 0), processed := false }

/-- The contract's storage (src/unnamed/part_000 lines 11-33) together with
the immutable contract address `selfAddr` (the `address(this)` used by
`_hashCiphertexts`) and `nextRequestId`, which is modelled from the spec:
`BeginDecryption(list, callbackTarget) -> requestId` allocates a fresh
request id for every request. -/
structure ContractState where
  owner : Address
  isProvider : Address → Bool
  paused : Bool
  cooldownSeconds : Nat
  lastSubmissionTime : Address → Nat
  lastDecryptionRequestTime : Address → Nat
  currentBatchId : Nat
  batches : Nat → Batch
  decryptionContexts : Nat → DecryptionContext
  nextRequestId : Nat
  selfAddr : Address

/-- The constructor (src/unnamed/part_000 lines 80-84): the deployer becomes
owner and the cooldown defaults to 60 seconds; all mappings start at their
Solidity zero defaults. -/
def initialState (deployer self : Address) : ContractState :=
  { owner := deployer
    isProvider := fun _ => false
    paused := false
    cooldownSeconds := 60
    lastSubmissionTime := fun _ => 0
    lastDecryptionRequestTime := fun _ => 0
    currentBatchId := 0
    batches := fun _ => defaultBatch
    decryptionContexts := fun _ => defaultContext
    nextRequestId := 1
    selfAddr := self }

/-- `transferOwnership` (src/unnamed/part_000 lines 86-89): `onlyOwner`, then
unconditionally installs `newOwner` (no validation of the new owner). -/
def transferOwnership (sender : Address) (s : ContractState) (newOwner : Address) :
    ContractState × Option Err :=
  if sender ≠ s.owner then (s, some .NotOwner)
  else ({ s with owner := newOwner }, none)

/-- `addProvider` (src/unnamed/part_000 lines 91-94): `onlyOwner` only — note
the source has no `whenNotPaused` modifier here. -/
def addProvider (sender : Address) (s : ContractState) (p : Address) :
    ContractState × Option Err :=
  if sender ≠ s.owner then (s, some .NotOwner)
  else ({ s with isProvider := fun a => if a = p then true else s.isProvider a }, none)

/-- `removeProvider` (src/unnamed/part_000 lines 96-99): `onlyOwner` only;
`delete` resets the mapping entry to `false`. -/
def removeProvider (sender : Address) (s : ContractState) (p : Address) :
    ContractState × Option Err :=
  if sender ≠ s.owner then (s, some .NotOwner)
  else ({ s with isProvider := fun a => if a = p then false else s.isProvider a }, none)

/-- `setPaused` (src/unnamed/part_000 lines 101-109): `onlyOwner` only. -/
def setPaused (sender : Address) (s : ContractState) (b : Bool) :
    ContractState × Option Err :=
  if sender ≠ s.owner then (s, some .NotOwner)
  else ({ s with paused := b }, none)

/-- `setCooldownSeconds` (src/unnamed/part_000 lines 111-114): `onlyOwner` only. -/
def setCooldownSeconds (sender : Address) (s : ContractState) (c : Nat) :
    ContractState × Option Err :=
  if sender ≠ s.owner then (s, some .NotOwner)
  else ({ s with cooldownSeconds := c }, none)

/-- `openBatch` (src/unnamed/part_000 lines 116-126): `onlyOwner`,
`whenNotPaused`, fails `BatchOpen` if the current batch is open, otherwise
increments `currentBatchId` and creates a fresh open batch with both
accumulators at the encryption of zero. -/
def openBatch (sender : Address) (s : ContractState) : ContractState × Option Err :=
  if sender ≠ s.owner then (s, some .NotOwner)
  else if s.paused then (s, some .PausedState)
  else if (s.batches s.currentBatchId).isOpen then (s, some .BatchOpen)
  else
    let newId := s.currentBatchId + 1
    ({ s with
        currentBatchId := newId
        batches := fun i =>
          if i = newId then
            { id := newId, isOpen := true, dataCount := 0,
              encryptedTotalVibration := 0, encryptedMaxTemperature := 0 }
          else s.batches i }, none)

/-- `closeBatch` (src/unnamed/part_000 lines 128-132): `onlyOwner`,
`whenNotPaused`, fails `BatchNotOpen` if the current batch is not open,
otherwise clears its `open` flag. -/
def closeBatch (sender : Address) (s : ContractState) : ContractState × Option Err :=
  if sender ≠ s.owner then (s, some .NotOwner)
  else if s.paused then (s, some .PausedState)
  else if ¬ (s.batches s.currentBatchId).isOpen then (s, some .BatchNotOpen)
  else
    ({ s with
        batches := fun i =>
          if i = s.currentBatchId then { s.batches i with isOpen := false }
          else s.batches i }, none)

/-- `submitData` (src/unnamed/part_000 lines 134-151): `onlyProvider`,
`whenNotPaused`, `respectCooldown` on `lastSubmissionTime`, fails
`BatchNotOpen` if the current batch is closed; otherwise increments the
count, folds the vibration value into the sum accumulator with `FHE.add`,
updates the max accumulator with the `FHE.ge` / `FHE.select` call exactly as
written in the source (see `selectAsWritten`), and records the submission
time.  `_initIfNeeded` only touches the external engine and is a no-op on
contract storage. -/
def submitData (sender now : Nat) (s : ContractState) (vib temp : Nat) :
    ContractState × Option Err :=
  if ¬ s.isProvider sender then (s, some .NotProvider)
  else if s.paused then (s, some .PausedState)
  else if now < s.lastSubmissionTime sender + s.cooldownSeconds then (s, some .CooldownActive)
  else if ¬ (s.batches s.currentBatchId).isOpen then (s, some .BatchNotOpen)
  else
    let b := s.batches s.currentBatchId
    let b' := { b with
        dataCount := b.dataCount + 1
        encryptedTotalVibration := fheAdd b.encryptedTotalVibration vib
        encryptedMaxTemperature :=
          selectAsWritten b.encryptedMaxTemperature temp
            (fheGe temp b.encryptedMaxTemperature) }
    ({ s with
        batches := fun i => if i = s.currentBatchId then b' else s.batches i
        lastSubmissionTime := fun a => if a = sender then now else s.lastSubmissionTime a },
      none)

/-- `requestBatchDecryption` (src/unnamed/part_000 lines 153-169): `onlyOwner`,
`whenNotPaused`, `respectCooldown` on `lastDecryptionRequestTime`, fails
`InvalidBatch` if the id is 0, beyond `currentBatchId`, or the batch is
still open; otherwise snapshots the two accumulator handles, stores their
digest in a fresh `DecryptionContext` under the request id handed out by the
external engine (modelled as the fresh counter `nextRequestId`), and records
the request time. -/
def requestBatchDecryption (sender now : Nat) (s : ContractState) (batchId : Nat) :
    ContractState × Option Err :=
  if sender ≠ s.owner then (s, some .NotOwner)
  else if s.paused then (s, some .PausedState)
  else if now < s.lastDecryptionRequestTime sender + s.cooldownSeconds then
    (s, some .CooldownActive)
  else if batchId = 0 ∨ s.currentBatchId < batchId ∨ (s.batches batchId).isOpen then
    (s, some .InvalidBatch)
  else
    let tv := (s.batches batchId).encryptedTotalVibration
    let mt := (s.batches batchId).encryptedMaxTemperature
    let stateHash := hashCiphertexts [tv, mt] s.selfAddr
    let requestId := s.nextRequestId
    ({ s with
        nextRequestId := requestId + 1
        decryptionContexts := fun r =>
          if r = requestId then
            { batchId := batchId, stateHash := stateHash, processed := false }
          else s.decryptionContexts r
        lastDecryptionRequestTime := fun a =>
          if a = sender then now else s.lastDecryptionRequestTime a }, none)

/-- `myCallback` (src/unnamed/part_000 lines 171-197), callable by anyone.
`chk` is the external `FHE.checkSignatures` proof-verification oracle
(modelled from the spec: `VerifyProof(requestId, cleartexts, proof) -> bool`),
and `cleartexts` is modelled as the already-decoded `(uint32, uint32)` pair.
Checks, in source order: `processed` → `ReplayAttempt`; `batchId` of the
stored context zero or beyond `currentBatchId` → `InvalidBatch`; recomputed
digest of the batch's current accumulators differs from the stored digest →
`StateMismatch`; oracle rejects → `DecryptionFailed`; otherwise marks the
context processed. -/
def myCallback (chk : Nat → Nat × Nat → Nat → Bool) (s : ContractState)
    (requestId : Nat) (cleartexts : Nat × Nat) (proof : Nat) :
    ContractState × Option Err :=
  if (s.decryptionContexts requestId).processed then (s, some .ReplayAttempt)
  else
    let batchId := (s.decryptionContexts requestId).batchId
    if batchId = 0 ∨ s.currentBatchId < batchId then (s, some .InvalidBatch)
    else
      let tv := (s.batches batchId).encryptedTotalVibration
      let mt := (s.batches batchId).encryptedMaxTemperature
      let currentHash := hashCiphertexts [tv, mt] s.selfAddr
      if currentHash ≠ (s.decryptionContexts requestId).stateHash then
        (s, some .StateMismatch)
      else if ¬ chk requestId cleartexts proof then (s, some .DecryptionFailed)
      else
        ({ s with
            decryptionContexts := fun r =>
              if r = requestId then
                { s.decryptionContexts requestId with processed := true }
              else s.decryptionContexts r }, none)

/-- A proof-verification oracle that accepts everything. -/
def chkTrue : Nat → Nat × Nat → Nat → Bool := fun _ _ _ => true

/-- A proof-verification oracle that rejects everything. -/
def chkFalse : Nat → Nat × Nat → Nat → Bool := fun _ _ _ => false

/-- One submission call's externally chosen inputs: the calling provider, the
block timestamp, and the two submitted 32-bit values. -/
structure SubmitInput where
  sender : Nat
  now : Nat
  vib : Nat
  temp : Nat

/-- Apply a sequence of `submitData` calls, keeping the state an errored call
returns (an errored call leaves the state unchanged). -/
def applySubmits (s : ContractState) : List SubmitInput → ContractState
  | [] => s
  | i :: l => applySubmits (submitData i.sender i.now s i.vib i.temp).1 l

/-- Every `submitData` call in the sequence succeeds when run in order. -/
def allSucceed (s : ContractState) : List SubmitInput → Bool
  | [] => true
  | i :: l =>
    let r := submitData i.sender i.now s i.vib i.temp
    r.2.isNone && allSucceed r.1 l

/-- A deployed contract (owner 1, contract address 7) with provider 2 added
and batch 1 opened. -/
def demoOpen : ContractState :=
  (openBatch 1 (addProvider 1 (initialState 1 7) 2).1).1

/-- Two successful submissions by provider 2: values (5, 10) then (3, 20). -/
def demoSubmits : List SubmitInput :=
  [⟨2, 100, 5, 10⟩, ⟨2, 200, 3, 20⟩]

/-- `demoOpen` after batch 1 is closed again. -/
def demoClosed : ContractState := (closeBatch 1 demoOpen).1

/-- `demoClosed` after the owner requests decryption of batch 1; this stores
a `DecryptionContext` under request id 1. -/
def demoRequested : ContractState := (requestBatchDecryption 1 100 demoClosed 1).1

/-- `demoRequested` after a successful callback for request id 1. -/
def demoCompleted : ContractState := (myCallback chkTrue demoRequested 1 (0, 0) 0).1

/-- The deployed contract with the pause flag set by the owner. -/
def demoPaused : ContractState := (setPaused 1 (initialState 1 7) true).1

/-- The paused contract with provider 2 added (possible because `addProvider`
is not pause-gated). -/
def demoPausedProvider : ContractState := (addProvider 1 demoPaused 2).1

/-- Batch-ledger invariant: batch ids are assigned in strictly increasing
order starting at 1 — slot `i` holds a batch with `id = i` exactly for
`1 ≤ i ≤ currentBatchId`, every other slot still holds the default record —
and only the slot `currentBatchId` may be open. -/
def BatchInv (s : ContractState) : Prop :=
  (∀ i, 1 ≤ i → i ≤ s.currentBatchId → (s.batches i).id = i) ∧
  (∀ i, i = 0 ∨ s.currentBatchId < i → s.batches i = defaultBatch) ∧
  ∀ i, (s.batches i).isOpen = true → i = s.currentBatchId

/-- Decryption-context invariant: every request id at or above the engine's
fresh counter is still unallocated. -/
def CtxInv (s : ContractState) : Prop :=
  ∀ r, s.nextRequestId ≤ r → s.decryptionContexts r = defaultContext

/-- The combined state invariant. -/
def Inv (s : ContractState) : Prop := BatchInv s ∧ CtxInv s

/-- One public operation of the contract, with the caller, the block
timestamp, the proof oracle and all arguments chosen by the environment. -/
inductive Step : ContractState → ContractState → Prop where
  | ofTransferOwnership {s : ContractState} (a n : Nat) :
      Step s ((transferOwnership a s n).1)
  | ofAddProvider {s : ContractState} (a p : Nat) : Step s ((addProvider a s p).1)
  | ofRemoveProvider {s : ContractState} (a p : Nat) : Step s ((removeProvider a s p).1)
  | ofSetPaused {s : ContractState} (a : Nat) (b : Bool) : Step s ((setPaused a s b).1)
  | ofSetCooldownSeconds {s : ContractState} (a c : Nat) :
      Step s ((setCooldownSeconds a s c).1)
  | ofOpenBatch {s : ContractState} (a : Nat) : Step s ((openBatch a s).1)
  | ofCloseBatch {s : ContractState} (a : Nat) : Step s ((closeBatch a s).1)
  | ofSubmitData {s : ContractState} (a n v t : Nat) : Step s ((submitData a n s v t).1)
  | ofRequestBatchDecryption {s : ContractState} (a n b : Nat) :
      Step s ((requestBatchDecryption a n s b).1)
  | ofMyCallback {s : ContractState} (chk : Nat → Nat × Nat → Nat → Bool)
      (r : Nat) (c : Nat × Nat) (p : Nat) : Step s ((myCallback chk s r c p).1)

/-- Finitely many public operations in sequence. -/
inductive Steps : ContractState → ContractState → Prop where
  | refl {s : ContractState} : Steps s s
  | tail {s t u : ContractState} : Steps s t → Step t u → Steps s u

/-- States reachable from a freshly deployed contract by any sequence of
public operations. -/
inductive Reachable : ContractState → Prop where
  | deploy (deployer self : Address) : Reachable (initialState deployer self)
  | step {s t : ContractState} : Reachable s → Step s t → Reachable t

lemma notOwner_rejects (t : ContractState) (c : Nat) (hc : c ≠ t.owner) :
    (∀ x, (transferOwnership c t x).2 = some Err.NotOwner) ∧
    (∀ x, (addProvider c t x).2 = some Err.NotOwner) ∧
    (∀ x, (removeProvider c t x).2 = some Err.NotOwner) ∧
    (∀ b, (setPaused c t b).2 = some Err.NotOwner) ∧
    (∀ x, (setCooldownSeconds c t x).2 = some Err.NotOwner) ∧
    (openBatch c t).2 = some Err.NotOwner ∧
    (closeBatch c t).2 = some Err.NotOwner ∧
    ∀ m i, (requestBatchDecryption c m t i).2 = some Err.NotOwner := by
  refine ⟨fun x => ?_, fun x => ?_, fun x => ?_, fun b => ?_, fun x => ?_, ?_, ?_, fun m i => ?_⟩ <;>
    simp [transferOwnership, addProvider, removeProvider, setPaused, setCooldownSeconds,
      openBatch, closeBatch, requestBatchDecryption, hc]

/-- C1: the spec claims the max accumulator ends at the true maximum of the
submitted temperatures, but the source passes the `ebool` control to
`FHE.select` in the third position (see `selectAsWritten`), so the
accumulator keeps its old value whenever the new temperature is at least the
old maximum: after the two successful submissions of temperatures 10 and 20
to batch 1 the accumulator holds 0, not the true maximum 20. -/
theorem max_accumulator_not_true_max :
    allSucceed demoOpen demoSubmits = true ∧
    ((applySubmits demoOpen demoSubmits).batches 1).encryptedMaxTemperature = 0 ∧
    (demoSubmits.map SubmitInput.temp).foldr max 0 = 20 ∧ (0 : Nat) ≠ 20 :=
  ⟨by decide, by decide, by decide, by decide⟩

/-- C5 counterexample: on the freshly deployed contract no decryption context
exists for request id 1 (the mapping holds the default record), yet
`myCallback` fails with `InvalidBatch`, not with `ReplayAttempt` as the
claim states. -/
theorem callback_no_context_counterexample :
    (initialState 1 7).decryptionContexts 1 = defaultContext ∧
    myCallback chkTrue (initialState 1 7) 1 (0, 0) 0 = (initialState 1 7, some Err.InvalidBatch) ∧
    some Err.InvalidBatch ≠ some Err.ReplayAttempt :=
  ⟨rfl, rfl, by decide⟩

/-- C5 (amended): a `myCallback` call whose request id has no stored context
(so the mapping yields the default record: `processed = false` and
`batchId = 0`) fails with `InvalidBatch` — the replay check passes because
the default `processed` flag is false, and the zero default `batchId` then
trips the range check — and leaves the state unchanged. -/
theorem callback_no_context_invalid_batch (chk : Nat → Nat × Nat → Nat → Bool)
    (s : ContractState) (rid : Nat) (c : Nat × Nat) (p : Nat)
    (h1 : (s.decryptionContexts rid).processed = false)
    (h2 : (s.decryptionContexts rid).batchId = 0) :
    myCallback chk s rid c p = (s, some Err.InvalidBatch) := by
  simp [myCallback, h1, h2]

/-- Witness for `callback_no_context_invalid_batch` at the deployed contract
and request id 1. -/
theorem callback_no_context_invalid_batch_witness :
    ((initialState 1 7).decryptionContexts 1).processed = false ∧
    ((initialState 1 7).decryptionContexts 1).batchId = 0 ∧
    myCallback chkFalse (initialState 1 7) 1 (3, 4) 5 = (initialState 1 7, some Err.InvalidBatch) :=
  ⟨by decide, by decide,
    callback_no_context_invalid_batch chkFalse (initialState 1 7) 1 (3, 4) 5 (by decide) (by decide)⟩

/-- C6: an owner call to `requestBatchDecryption` that is not paused and past
the cooldown fails with `InvalidBatch` whenever the batch id is 0, exceeds
`currentBatchId`, or names a batch that is still open; the returned state is
the input state, so no decryption context is created and nothing else
changes. -/
theorem request_invalid_batch_rejected (s : ContractState) (a n i : Nat)
    (ha : a = s.owner) (hp : s.paused = false)
    (hc : s.lastDecryptionRequestTime a + s.cooldownSeconds ≤ n)
    (hi : i = 0 ∨ s.currentBatchId < i ∨ (s.batches i).isOpen = true) :
    requestBatchDecryption a n s i = (s, some Err.InvalidBatch) := by
  have h2 : ¬ n < s.lastDecryptionRequestTime a + s.cooldownSeconds := Nat.not_lt.mpr hc
  subst ha
  simp [requestBatchDecryption, hp, h2, hi]

/-- Witness for `request_invalid_batch_rejected`: batch id 0 on the freshly
deployed contract. -/
theorem request_invalid_batch_rejected_witness :
    (initialState 1 7).paused = false ∧
    (initialState 1 7).lastDecryptionRequestTime 1 + (initialState 1 7).cooldownSeconds ≤ 100 ∧
    requestBatchDecryption 1 100 (initialState 1 7) 0 = (initialState 1 7, some Err.InvalidBatch) :=
  ⟨by decide, by decide,
    request_invalid_batch_rejected (initialState 1 7) 1 100 0 rfl (by decide) (by decide)
      (Or.inl rfl)⟩

/-- C7 counterexample: with the pause flag set, the owner's `addProvider`
call succeeds (returns no error) and changes state — address 2 becomes a
provider — instead of failing with `PausedState` as the claim states. -/
theorem addProvider_while_paused_succeeds :
    demoPaused.paused = true ∧
    (addProvider 1 demoPaused 2).2 = none ∧
    (addProvider 1 demoPaused 2).2 ≠ some Err.PausedState ∧
    demoPaused.isProvider 2 = false ∧
    ((addProvider 1 demoPaused 2).1).isProvider 2 = true :=
  ⟨by decide, by decide, by decide, by decide, by decide⟩

/-- C7 (amended): while paused, exactly the four operational entry points
that carry `whenNotPaused` — `openBatch`, `closeBatch`, `submitData` and
`requestBatchDecryption` — fail with `PausedState` and leave state
unchanged; the administrative owner calls `addProvider`, `removeProvider`,
`setCooldownSeconds` and `transferOwnership` are only owner-gated and
succeed while paused. -/
theorem paused_gates_only_operational_calls (s : ContractState) (a b : Nat)
    (hp : s.paused = true) (ha : a = s.owner) (hb : s.isProvider b = true) :
    openBatch a s = (s, some Err.PausedState) ∧
    closeBatch a s = (s, some Err.PausedState) ∧
    (∀ n v t, submitData b n s v t = (s, some Err.PausedState)) ∧
    (∀ n i, requestBatchDecryption a n s i = (s, some Err.PausedState)) ∧
    (∀ x, (addProvider a s x).2 = none) ∧
    (∀ x, (removeProvider a s x).2 = none) ∧
    (∀ x, (setCooldownSeconds a s x).2 = none) ∧
    ∀ x, (transferOwnership a s x).2 = none := by
  subst ha
  refine ⟨?_, ?_, fun n v t => ?_, fun n i => ?_, fun x => ?_, fun x => ?_, fun x => ?_,
    fun x => ?_⟩ <;>
    simp [openBatch, closeBatch, submitData, requestBatchDecryption, addProvider,
      removeProvider, setCooldownSeconds, transferOwnership, hp, hb]

/-- Witness for `paused_gates_only_operational_calls` on the paused contract
with provider 2. -/
theorem paused_gates_only_operational_calls_witness :
    demoPausedProvider.paused = true ∧
    demoPausedProvider.isProvider 2 = true ∧
    openBatch 1 demoPausedProvider = (demoPausedProvider, some Err.PausedState) ∧
    (addProvider 1 demoPausedProvider 9).2 = none :=
  ⟨by decide, by decide,
    (paused_gates_only_operational_calls demoPausedProvider 1 2 (by decide) (by decide)
      (by decide)).1,
    (paused_gates_only_operational_calls demoPausedProvider 1 2 (by decide) (by decide)
      (by decide)).2.2.2.2.1 9⟩

/-- C9: every failing `myCallback` call returns the input state unchanged (so
the decryption context is left unprocessed and untouched), and in particular
after a `DecryptionFailed` proof rejection a later call for the same request
id with an accepted proof still succeeds. -/
theorem callback_failure_not_terminal (chk : Nat → Nat × Nat → Nat → Bool)
    (s : ContractState) (rid : Nat) (c : Nat × Nat) (p : Nat) :
    (∀ e, (myCallback chk s rid c p).2 = some e → (myCallback chk s rid c p).1 = s) ∧
    ((myCallback chk s rid c p).2 = some Err.DecryptionFailed →
      ∀ chk2 c2 p2, chk2 rid c2 p2 = true → (myCallback chk2 s rid c2 p2).2 = none) := by
  constructor
  · intro e he
    by_cases h1 : (s.decryptionContexts rid).processed = true
    · simp [myCallback, h1]
    · by_cases h2 : (s.decryptionContexts rid).batchId = 0 ∨
          s.currentBatchId < (s.decryptionContexts rid).batchId
      · simp [myCallback, h1, h2]
      · by_cases h3 : hashCiphertexts
            [(s.batches (s.decryptionContexts rid).batchId).encryptedTotalVibration,
             (s.batches (s.decryptionContexts rid).batchId).encryptedMaxTemperature]
            s.selfAddr = (s.decryptionContexts rid).stateHash
        · by_cases h4 : chk rid c p = true
          · simp [myCallback, h1, h2, h3, h4] at he
          · simp [myCallback, h1, h2, h3, h4]
        · simp [myCallback, h1, h2, h3]
  · intro hfail chk2 c2 p2 hchk
    by_cases h1 : (s.decryptionContexts rid).processed = true
    · simp [myCallback, h1] at hfail
    · by_cases h2 : (s.decryptionContexts rid).batchId = 0 ∨
          s.currentBatchId < (s.decryptionContexts rid).batchId
      · simp [myCallback, h1, h2] at hfail
      · by_cases h3 : hashCiphertexts
            [(s.batches (s.decryptionContexts rid).batchId).encryptedTotalVibration,
             (s.batches (s.decryptionContexts rid).batchId).encryptedMaxTemperature]
            s.selfAddr = (s.decryptionContexts rid).stateHash
        · simp [myCallback, h1, h2, h3, hchk]
        · simp [myCallback, h1, h2, h3] at hfail

/-- Witness for `callback_failure_not_terminal`: on the requested state a
rejected proof yields `DecryptionFailed` and leaves the state unchanged,
after which an accepted proof completes the same request id. -/
theorem callback_failure_not_terminal_witness :
    (myCallback chkFalse demoRequested 1 (0, 0) 0).1 = demoRequested ∧
    (myCallback chkTrue demoRequested 1 (0, 0) 0).2 = none :=
  ⟨(callback_failure_not_terminal chkFalse demoRequested 1 (0, 0) 0).1 Err.DecryptionFailed
      (by decide),
    (callback_failure_not_terminal chkFalse demoRequested 1 (0, 0) 0).2 (by decide)
      chkTrue (0, 0) 0 (by decide)⟩

/-- C10: `transferOwnership` called by the current owner succeeds for every
new-owner value with no validation (including the zero address); after
transferring to the zero address, every owner-gated operation invoked by any
nonzero caller fails with `NotOwner`. -/
theorem transferOwnership_no_validation (s : ContractState) (a : Nat) (ha : a = s.owner) :
    (∀ n, transferOwnership a s n = ({ s with owner := n }, none)) ∧
    ∀ c, c ≠ 0 →
      (∀ x, (transferOwnership c ((transferOwnership a s 0).1) x).2 = some Err.NotOwner) ∧
      (∀ x, (addProvider c ((transferOwnership a s 0).1) x).2 = some Err.NotOwner) ∧
      (∀ x, (removeProvider c ((transferOwnership a s 0).1) x).2 = some Err.NotOwner) ∧
      (∀ b, (setPaused c ((transferOwnership a s 0).1) b).2 = some Err.NotOwner) ∧
      (∀ x, (setCooldownSeconds c ((transferOwnership a s 0).1) x).2 = some Err.NotOwner) ∧
      (openBatch c ((transferOwnership a s 0).1)).2 = some Err.NotOwner ∧
      (closeBatch c ((transferOwnership a s 0).1)).2 = some Err.NotOwner ∧
      ∀ m i, (requestBatchDecryption c m ((transferOwnership a s 0).1) i).2 = some Err.NotOwner := by
  subst ha
  have hok : ∀ n, transferOwnership s.owner s n = ({ s with owner := n }, none) := by
    intro n; simp [transferOwnership]
  refine ⟨hok, fun c hc => ?_⟩
  have hzero : ((transferOwnership s.owner s 0).1).owner = 0 := by rw [hok 0]
  exact notOwner_rejects ((transferOwnership s.owner s 0).1) c (by rw [hzero]; exact hc)

/-- Witness for `transferOwnership_no_validation` on the deployed contract:
the owner hands ownership to the zero address, after which caller 2 is
rejected with `NotOwner`. -/
theorem transferOwnership_no_validation_witness :
    transferOwnership 1 (initialState 1 7) 0 = ({ initialState 1 7 with owner := 0 }, none) ∧
    (addProvider 2 ((transferOwnership 1 (initialState 1 7) 0).1) 2).2 = some Err.NotOwner :=
  ⟨(transferOwnership_no_validation (initialState 1 7) 1 rfl).1 0,
    ((transferOwnership_no_validation (initialState 1 7) 1 rfl).2 2 (by decide)).2.1 2⟩

/-- C3: for a `myCallback` call whose request id refers to an unprocessed
context with an in-range batch id, the call recomputes the integrity digest
over the batch's current accumulator handles together with the contract's
own address, fails with `StateMismatch` exactly when that recomputed digest
differs from the digest stored at request time, and in particular does not
take the `StateMismatch` branch when the stored digest still matches the
batch's current accumulators. -/
theorem callback_recomputes_digest (chk : Nat → Nat × Nat → Nat → Bool)
    (s : ContractState) (rid : Nat) (c : Nat × Nat) (p : Nat)
    (h1 : (s.decryptionContexts rid).processed = false)
    (h2 : (s.decryptionContexts rid).batchId ≠ 0)
    (h3 : (s.decryptionContexts rid).batchId ≤ s.currentBatchId) :
    ((myCallback chk s rid c p).2 = some Err.StateMismatch ↔
      hashCiphertexts
        [(s.batches (s.decryptionContexts rid).batchId).encryptedTotalVibration,
         (s.batches (s.decryptionContexts rid).batchId).encryptedMaxTemperature]
        s.selfAddr ≠ (s.decryptionContexts rid).stateHash) ∧
    (hashCiphertexts
        [(s.batches (s.decryptionContexts rid).batchId).encryptedTotalVibration,
         (s.batches (s.decryptionContexts rid).batchId).encryptedMaxTemperature]
        s.selfAddr = (s.decryptionContexts rid).stateHash →
      (myCallback chk s rid c p).2 ≠ some Err.StateMismatch) := by
  have h2' : ¬ ((s.decryptionContexts rid).batchId = 0 ∨
      s.currentBatchId < (s.decryptionContexts rid).batchId) := by
    push_neg
    exact ⟨h2, h3⟩
  by_cases hh : hashCiphertexts
      [(s.batches (s.decryptionContexts rid).batchId).encryptedTotalVibration,
       (s.batches (s.decryptionContexts rid).batchId).encryptedMaxTemperature]
      s.selfAddr = (s.decryptionContexts rid).stateHash
  · have hne : (myCallback chk s rid c p).2 ≠ some Err.StateMismatch := by
      by_cases h4 : chk rid c p = true <;> simp [myCallback, h1, h2', hh, h4]
    exact ⟨by simp [hne, hh], fun _ => hne⟩
  · have heq : (myCallback chk s rid c p).2 = some Err.StateMismatch := by
      simp [myCallback, h1, h2', hh]
    exact ⟨by simp [heq, hh], fun hcontra => absurd hcontra hh⟩

/-- Witness for `callback_recomputes_digest` on the state with an open request
for batch 1, whose accumulators are unchanged since the request. -/
theorem callback_recomputes_digest_witness :
    ((demoRequested.decryptionContexts 1).processed = false ∧
      (demoRequested.decryptionContexts 1).batchId ≠ 0 ∧
      (demoRequested.decryptionContexts 1).batchId ≤ demoRequested.currentBatchId) ∧
    ((myCallback chkTrue demoRequested 1 (0, 0) 0).2 = some Err.StateMismatch ↔
      hashCiphertexts
        [(demoRequested.batches (demoRequested.decryptionContexts 1).batchId).encryptedTotalVibration,
         (demoRequested.batches (demoRequested.decryptionContexts 1).batchId).encryptedMaxTemperature]
        demoRequested.selfAddr ≠ (demoRequested.decryptionContexts 1).stateHash) :=
  ⟨⟨by decide, by decide, by decide⟩,
    (callback_recomputes_digest chkTrue demoRequested 1 (0, 0) 0 (by decide) (by decide)
      (by decide)).1⟩

lemma M32_pos : 0 < M32 := by norm_num [M32]

lemma submitData_success (a n v t : Nat) (s : ContractState)
    (h : (submitData a n s v t).2 = none) :
    ((submitData a n s v t).1).currentBatchId = s.currentBatchId ∧
    (((submitData a n s v t).1).batches s.currentBatchId).encryptedTotalVibration
      = ((s.batches s.currentBatchId).encryptedTotalVibration + v) % M32 := by
  by_cases h1 : s.isProvider a = true
  · by_cases h2 : s.paused = true
    · simp [submitData, h1, h2] at h
    · by_cases h3 : n < s.lastSubmissionTime a + s.cooldownSeconds
      · simp [submitData, h1, h2, h3] at h
      · by_cases h4 : (s.batches s.currentBatchId).isOpen = true
        · simp [submitData, h1, h2, h3, h4, fheAdd]
        · simp [submitData, h1, h2, h3, h4] at h
  · simp [submitData, h1] at h

lemma applySubmits_sum (l : List SubmitInput) :
    ∀ s : ContractState,
      (s.batches s.currentBatchId).encryptedTotalVibration < M32 →
      allSucceed s l = true →
      (applySubmits s l).currentBatchId = s.currentBatchId ∧
      ((applySubmits s l).batches s.currentBatchId).encryptedTotalVibration
        = ((s.batches s.currentBatchId).encryptedTotalVibration
            + (l.map SubmitInput.vib).sum) % M32 := by
  induction l with
  | nil =>
    intro s hlt _
    exact ⟨rfl, by simpa [applySubmits] using (Nat.mod_eq_of_lt hlt).symm⟩
  | cons i l ih =>
    intro s hlt h
    simp only [allSucceed, Bool.and_eq_true, Option.isNone_iff_eq_none] at h
    obtain ⟨hok, hrest⟩ := h
    obtain ⟨hcur, htv⟩ := submitData_success i.sender i.now i.vib i.temp s hok
    have happ : applySubmits s (i :: l)
        = applySubmits ((submitData i.sender i.now s i.vib i.temp).1) l := rfl
    have hlt1 : (((submitData i.sender i.now s i.vib i.temp).1).batches
        ((submitData i.sender i.now s i.vib i.temp).1).currentBatchId).encryptedTotalVibration
        < M32 := by
      rw [hcur, htv]
      exact Nat.mod_lt _ M32_pos
    obtain ⟨ihcur, ihtv⟩ := ih ((submitData i.sender i.now s i.vib i.temp).1) hlt1 hrest
    rw [hcur] at ihcur ihtv
    refine ⟨by rw [happ, ihcur], ?_⟩
    rw [happ, ihtv, htv, Nat.mod_add_mod]
    simp [Nat.add_assoc]

/-- C2: starting from a zeroed sum accumulator, after any sequence of
successful `submitData` calls the current batch's sum accumulator holds the
arithmetic sum of all submitted vibration values reduced modulo `2^32`, and
any other successful submission sequence whose vibration values are a
permutation of the first leaves the accumulator with the same value. -/
theorem sum_accumulator_correct (s : ContractState) (l : List SubmitInput)
    (h0 : (s.batches s.currentBatchId).encryptedTotalVibration = 0)
    (h : allSucceed s l = true) :
    ((applySubmits s l).batches s.currentBatchId).encryptedTotalVibration
      = (l.map SubmitInput.vib).sum % M32 ∧
    ∀ l2, allSucceed s l2 = true →
      (l2.map SubmitInput.vib).Perm (l.map SubmitInput.vib) →
      ((applySubmits s l2).batches s.currentBatchId).encryptedTotalVibration
        = ((applySubmits s l).batches s.currentBatchId).encryptedTotalVibration := by
  have hlt : (s.batches s.currentBatchId).encryptedTotalVibration < M32 := by
    rw [h0]; exact M32_pos
  have h1 := (applySubmits_sum l s hlt h).2
  rw [h0, Nat.zero_add] at h1
  refine ⟨h1, fun l2 h2 hperm => ?_⟩
  have h3 := (applySubmits_sum l2 s hlt h2).2
  rw [h0, Nat.zero_add] at h3
  rw [h1, h3, hperm.sum_eq]

/-- Witness for `sum_accumulator_correct`: the two demo submissions with
vibration values 5 and 3 leave the sum accumulator at 8. -/
theorem sum_accumulator_correct_witness :
    (demoOpen.batches demoOpen.currentBatchId).encryptedTotalVibration = 0 ∧
    allSucceed demoOpen demoSubmits = true ∧
    ((applySubmits demoOpen demoSubmits).batches demoOpen.currentBatchId).encryptedTotalVibration
      = (demoSubmits.map SubmitInput.vib).sum % M32 :=
  ⟨by decide, by decide,
    (sum_accumulator_correct demoOpen demoSubmits (by decide) (by decide)).1⟩

lemma transferOwnership_ledger (a n : Nat) (s : ContractState) :
    ((transferOwnership a s n).1).batches = s.batches ∧
    ((transferOwnership a s n).1).currentBatchId = s.currentBatchId ∧
    ((transferOwnership a s n).1).decryptionContexts = s.decryptionContexts ∧
    ((transferOwnership a s n).1).nextRequestId = s.nextRequestId := by
  unfold transferOwnership
  split <;> simp

lemma addProvider_ledger (a p : Nat) (s : ContractState) :
    ((addProvider a s p).1).batches = s.batches ∧
    ((addProvider a s p).1).currentBatchId = s.currentBatchId ∧
    ((addProvider a s p).1).decryptionContexts = s.decryptionContexts ∧
    ((addProvider a s p).1).nextRequestId = s.nextRequestId := by
  unfold addProvider
  split <;> simp

lemma removeProvider_ledger (a p : Nat) (s : ContractState) :
    ((removeProvider a s p).1).batches = s.batches ∧
    ((removeProvider a s p).1).currentBatchId = s.currentBatchId ∧
    ((removeProvider a s p).1).decryptionContexts = s.decryptionContexts ∧
    ((removeProvider a s p).1).nextRequestId = s.nextRequestId := by
  unfold removeProvider
  split <;> simp

lemma setPaused_ledger (a : Nat) (b : Bool) (s : ContractState) :
    ((setPaused a s b).1).batches = s.batches ∧
    ((setPaused a s b).1).currentBatchId = s.currentBatchId ∧
    ((setPaused a s b).1).decryptionContexts = s.decryptionContexts ∧
    ((setPaused a s b).1).nextRequestId = s.nextRequestId := by
  unfold setPaused
  split <;> simp

lemma setCooldownSeconds_ledger (a c : Nat) (s : ContractState) :
    ((setCooldownSeconds a s c).1).batches = s.batches ∧
    ((setCooldownSeconds a s c).1).currentBatchId = s.currentBatchId ∧
    ((setCooldownSeconds a s c).1).decryptionContexts = s.decryptionContexts ∧
    ((setCooldownSeconds a s c).1).nextRequestId = s.nextRequestId := by
  unfold setCooldownSeconds
  split <;> simp

lemma invLedger_eq {s s' : ContractState}
    (hb : s'.batches = s.batches) (hc : s'.currentBatchId = s.currentBatchId)
    (hd : s'.decryptionContexts = s.decryptionContexts)
    (hn : s'.nextRequestId = s.nextRequestId) (h : Inv s) : Inv s' := by
  unfold Inv BatchInv CtxInv at h ⊢
  rw [hb, hc, hd, hn]
  exact h

lemma openBatch_cases (a : Nat) (s : ContractState) :
    (openBatch a s).1 = s ∨
    ((s.batches s.currentBatchId).isOpen = false ∧
      (openBatch a s).1 = { s with
        currentBatchId := s.currentBatchId + 1
        batches := fun i =>
          if i = s.currentBatchId + 1 then
            { id := s.currentBatchId + 1, isOpen := true, dataCount := 0,
              encryptedTotalVibration := 0, encryptedMaxTemperature := 0 }
          else s.batches i }) := by
  unfold openBatch
  split
  · exact Or.inl rfl
  split
  · exact Or.inl rfl
  split
  · exact Or.inl rfl
  rename_i h
  exact Or.inr ⟨by simpa using h, rfl⟩

lemma closeBatch_cases (a : Nat) (s : ContractState) :
    (closeBatch a s).1 = s ∨
    ((s.batches s.currentBatchId).isOpen = true ∧
      (closeBatch a s).1 = { s with
        batches := fun i =>
          if i = s.currentBatchId then { s.batches i with isOpen := false }
          else s.batches i }) := by
  unfold closeBatch
  split
  · exact Or.inl rfl
  split
  · exact Or.inl rfl
  split
  · exact Or.inl rfl
  rename_i h
  exact Or.inr ⟨by simpa using h, rfl⟩

lemma submitData_cases (a n v t : Nat) (s : ContractState) :
    (submitData a n s v t).1 = s ∨
    ((s.batches s.currentBatchId).isOpen = true ∧
      (submitData a n s v t).1 = { s with
        batches := fun i =>
          if i = s.currentBatchId then
            { s.batches s.currentBatchId with
                dataCount := (s.batches s.currentBatchId).dataCount + 1
                encryptedTotalVibration :=
                  fheAdd (s.batches s.currentBatchId).encryptedTotalVibration v
                encryptedMaxTemperature :=
                  selectAsWritten (s.batches s.currentBatchId).encryptedMaxTemperature t
                    (fheGe t (s.batches s.currentBatchId).encryptedMaxTemperature) }
          else s.batches i
        lastSubmissionTime := fun x => if x = a then n else s.lastSubmissionTime x }) := by
  unfold submitData
  split
  · exact Or.inl rfl
  split
  · exact Or.inl rfl
  split
  · exact Or.inl rfl
  split
  · exact Or.inl rfl
  rename_i h
  exact Or.inr ⟨by simpa using h, rfl⟩

lemma requestBatchDecryption_cases (a n b : Nat) (s : ContractState) :
    (requestBatchDecryption a n s b).1 = s ∨
    (requestBatchDecryption a n s b).1 = { s with
        nextRequestId := s.nextRequestId + 1
        decryptionContexts := fun r =>
          if r = s.nextRequestId then
            { batchId := b,
              stateHash := hashCiphertexts
                [(s.batches b).encryptedTotalVibration,
                 (s.batches b).encryptedMaxTemperature] s.selfAddr,
              processed := false }
          else s.decryptionContexts r
        lastDecryptionRequestTime := fun x =>
          if x = a then n else s.lastDecryptionRequestTime x } := by
  unfold requestBatchDecryption
  split
  · exact Or.inl rfl
  split
  · exact Or.inl rfl
  split
  · exact Or.inl rfl
  split
  · exact Or.inl rfl
  exact Or.inr rfl

lemma myCallback_cases (chk : Nat → Nat × Nat → Nat → Bool) (s : ContractState)
    (rid : Nat) (c : Nat × Nat) (p : Nat) :
    (myCallback chk s rid c p).1 = s ∨
    ((s.decryptionContexts rid).processed = false ∧
      (s.decryptionContexts rid).batchId ≠ 0 ∧
      (myCallback chk s rid c p).1 = { s with
        decryptionContexts := fun r =>
          if r = rid then { s.decryptionContexts rid with processed := true }
          else s.decryptionContexts r }) := by
  simp only [myCallback]
  split
  · exact Or.inl rfl
  rename_i h1
  split
  · exact Or.inl rfl
  rename_i h2
  split
  · exact Or.inl rfl
  split
  · exact Or.inl rfl
  refine Or.inr ⟨by simpa using h1, fun h0 => h2 (Or.inl h0), rfl⟩

lemma inv_init (d self : Address) : Inv (initialState d self) := by
  refine ⟨⟨fun i h1 h2 => ?_, fun i _ => rfl, fun i hi => ?_⟩, fun r _ => rfl⟩
  · have h2' : i ≤ 0 := h2
    omega
  · have hi' : defaultBatch.isOpen = true := hi
    simp [defaultBatch] at hi'

lemma inv_openBatch (a : Nat) {s : ContractState} (h : Inv s) : Inv ((openBatch a s).1) := by
  rcases openBatch_cases a s with heq | ⟨hcl, heq⟩
  · rw [heq]; exact h
  obtain ⟨⟨hid, hdef, hopen⟩, hctx⟩ := h
  have hcur : ((openBatch a s).1).currentBatchId = s.currentBatchId + 1 := by rw [heq]
  have hbat : ∀ i, ((openBatch a s).1).batches i =
      if i = s.currentBatchId + 1 then
        { id := s.currentBatchId + 1, isOpen := true, dataCount := 0,
          encryptedTotalVibration := 0, encryptedMaxTemperature := 0 }
      else s.batches i := by
    intro i; rw [heq]
  have hdcx : ((openBatch a s).1).decryptionContexts = s.decryptionContexts := by rw [heq]
  have hnxt : ((openBatch a s).1).nextRequestId = s.nextRequestId := by rw [heq]
  refine ⟨⟨fun i h1 h2 => ?_, fun i hi => ?_, fun i hi => ?_⟩, fun r hr => ?_⟩
  · rw [hcur] at h2
    rw [hbat]
    by_cases hc : i = s.currentBatchId + 1
    · rw [if_pos hc, hc]
    · rw [if_neg hc]
      exact hid i h1 (by omega)
  · rw [hcur] at hi
    rw [hbat, if_neg (by omega)]
    exact hdef i (by omega)
  · rw [hbat] at hi
    rw [hcur]
    by_cases hc : i = s.currentBatchId + 1
    · exact hc
    · rw [if_neg hc] at hi
      have h2 := hopen i hi
      rw [h2] at hi
      simp [hcl] at hi
  · rw [hnxt] at hr
    rw [hdcx]
    exact hctx r hr

lemma inv_closeBatch (a : Nat) {s : ContractState} (h : Inv s) : Inv ((closeBatch a s).1) := by
  rcases closeBatch_cases a s with heq | ⟨hop, heq⟩
  · rw [heq]; exact h
  obtain ⟨⟨hid, hdef, hopen⟩, hctx⟩ := h
  have hne0 : s.currentBatchId ≠ 0 := by
    intro h0
    rw [h0, hdef 0 (Or.inl rfl)] at hop
    simp [defaultBatch] at hop
  have hcur : ((closeBatch a s).1).currentBatchId = s.currentBatchId := by rw [heq]
  have hbat : ∀ i, ((closeBatch a s).1).batches i =
      if i = s.currentBatchId then { s.batches i with isOpen := false }
      else s.batches i := by
    intro i; rw [heq]
  have hdcx : ((closeBatch a s).1).decryptionContexts = s.decryptionContexts := by rw [heq]
  have hnxt : ((closeBatch a s).1).nextRequestId = s.nextRequestId := by rw [heq]
  refine ⟨⟨fun i h1 h2 => ?_, fun i hi => ?_, fun i hi => ?_⟩, fun r hr => ?_⟩
  · rw [hcur] at h2
    rw [hbat]
    by_cases hc : i = s.currentBatchId
    · rw [if_pos hc]
      exact hid i h1 h2
    · rw [if_neg hc]
      exact hid i h1 h2
  · rw [hcur] at hi
    rw [hbat, if_neg (by omega)]
    exact hdef i hi
  · rw [hbat] at hi
    rw [hcur]
    by_cases hc : i = s.currentBatchId
    · exact hc
    · rw [if_neg hc] at hi
      exact hopen i hi
  · rw [hnxt] at hr
    rw [hdcx]
    exact hctx r hr

lemma inv_submitData (a n v t : Nat) {s : ContractState} (h : Inv s) :
    Inv ((submitData a n s v t).1) := by
  rcases submitData_cases a n v t s with heq | ⟨hop, heq⟩
  · rw [heq]; exact h
  obtain ⟨⟨hid, hdef, hopen⟩, hctx⟩ := h
  have hne0 : s.currentBatchId ≠ 0 := by
    intro h0
    rw [h0, hdef 0 (Or.inl rfl)] at hop
    simp [defaultBatch] at hop
  have hcur : ((submitData a n s v t).1).currentBatchId = s.currentBatchId := by rw [heq]
  have hbat : ∀ i, ((submitData a n s v t).1).batches i =
      if i = s.currentBatchId then
        { s.batches s.currentBatchId with
            dataCount := (s.batches s.currentBatchId).dataCount + 1
            encryptedTotalVibration :=
              fheAdd (s.batches s.currentBatchId).encryptedTotalVibration v
            encryptedMaxTemperature :=
              selectAsWritten (s.batches s.currentBatchId).encryptedMaxTemperature t
                (fheGe t (s.batches s.currentBatchId).encryptedMaxTemperature) }
      else s.batches i := by
    intro i; rw [heq]
  have hdcx : ((submitData a n s v t).1).decryptionContexts = s.decryptionContexts := by
    rw [heq]
  have hnxt : ((submitData a n s v t).1).nextRequestId = s.nextRequestId := by rw [heq]
  refine ⟨⟨fun i h1 h2 => ?_, fun i hi => ?_, fun i hi => ?_⟩, fun r hr => ?_⟩
  · rw [hcur] at h2
    rw [hbat]
    by_cases hc : i = s.currentBatchId
    · rw [if_pos hc]
      have : (s.batches s.currentBatchId).id = s.currentBatchId :=
        hid s.currentBatchId (by omega) (by omega)
      rw [hc]
      exact this
    · rw [if_neg hc]
      exact hid i h1 h2
  · rw [hcur] at hi
    rw [hbat, if_neg (by omega)]
    exact hdef i hi
  · rw [hbat] at hi
    rw [hcur]
    by_cases hc : i = s.currentBatchId
    · exact hc
    · rw [if_neg hc] at hi
      exact hopen i hi
  · rw [hnxt] at hr
    rw [hdcx]
    exact hctx r hr

lemma inv_requestBatchDecryption (a n b : Nat) {s : ContractState} (h : Inv s) :
    Inv ((requestBatchDecryption a n s b).1) := by
  rcases requestBatchDecryption_cases a n b s with heq | heq
  · rw [heq]; exact h
  obtain ⟨hbinv, hctx⟩ := h
  have hbat : ((requestBatchDecryption a n s b).1).batches = s.batches := by rw [heq]
  have hcur : ((requestBatchDecryption a n s b).1).currentBatchId = s.currentBatchId := by
    rw [heq]
  have hnxt : ((requestBatchDecryption a n s b).1).nextRequestId = s.nextRequestId + 1 := by
    rw [heq]
  have hdcx : ∀ r, ((requestBatchDecryption a n s b).1).decryptionContexts r =
      if r = s.nextRequestId then
        { batchId := b,
          stateHash := hashCiphertexts
            [(s.batches b).encryptedTotalVibration,
             (s.batches b).encryptedMaxTemperature] s.selfAddr,
          processed := false }
      else s.decryptionContexts r := by
    intro r; rw [heq]
  refine ⟨?_, fun r hr => ?_⟩
  · unfold BatchInv at hbinv ⊢
    rw [hbat, hcur]
    exact hbinv
  · rw [hnxt] at hr
    rw [hdcx, if_neg (by omega)]
    exact hctx r (by omega)

lemma inv_myCallback (chk : Nat → Nat × Nat → Nat → Bool) (rid : Nat) (c : Nat × Nat)
    (p : Nat) {s : ContractState} (h : Inv s) : Inv ((myCallback chk s rid c p).1) := by
  rcases myCallback_cases chk s rid c p with heq | ⟨hpr, hbid, heq⟩
  · rw [heq]; exact h
  obtain ⟨hbinv, hctx⟩ := h
  have hbat : ((myCallback chk s rid c p).1).batches = s.batches := by rw [heq]
  have hcur : ((myCallback chk s rid c p).1).currentBatchId = s.currentBatchId := by rw [heq]
  have hnxt : ((myCallback chk s rid c p).1).nextRequestId = s.nextRequestId := by rw [heq]
  have hdcx : ∀ r, ((myCallback chk s rid c p).1).decryptionContexts r =
      if r = rid then { s.decryptionContexts rid with processed := true }
      else s.decryptionContexts r := by
    intro r; rw [heq]
  refine ⟨?_, fun r hr => ?_⟩
  · unfold BatchInv at hbinv ⊢
    rw [hbat, hcur]
    exact hbinv
  · rw [hnxt] at hr
    rw [hdcx]
    by_cases hc : r = rid
    · exfalso
      have hd := hctx rid (by omega)
      rw [hd] at hbid
      exact hbid rfl
    · rw [if_neg hc]
      exact hctx r hr

lemma inv_step {s t : ContractState} (h : Inv s) (hs : Step s t) : Inv t := by
  cases hs with
  | ofTransferOwnership a n =>
    obtain ⟨hb, hc, hd, hn⟩ := transferOwnership_ledger a n s
    exact invLedger_eq hb hc hd hn h
  | ofAddProvider a p =>
    obtain ⟨hb, hc, hd, hn⟩ := addProvider_ledger a p s
    exact invLedger_eq hb hc hd hn h
  | ofRemoveProvider a p =>
    obtain ⟨hb, hc, hd, hn⟩ := removeProvider_ledger a p s
    exact invLedger_eq hb hc hd hn h
  | ofSetPaused a b =>
    obtain ⟨hb, hc, hd, hn⟩ := setPaused_ledger a b s
    exact invLedger_eq hb hc hd hn h
  | ofSetCooldownSeconds a c =>
    obtain ⟨hb, hc, hd, hn⟩ := setCooldownSeconds_ledger a c s
    exact invLedger_eq hb hc hd hn h
  | ofOpenBatch a => exact inv_openBatch a h
  | ofCloseBatch a => exact inv_closeBatch a h
  | ofSubmitData a n v t => exact inv_submitData a n v t h
  | ofRequestBatchDecryption a n b => exact inv_requestBatchDecryption a n b h
  | ofMyCallback chk r c p => exact inv_myCallback chk r c p h

lemma reachable_inv {s : ContractState} (h : Reachable s) : Inv s := by
  induction h with
  | deploy d self => exact inv_init d self
  | step h1 h2 ih => exact inv_step ih h2

lemma steps_reachable {s t : ContractState} (h : Reachable s) (hs : Steps s t) :
    Reachable t := by
  induction hs with
  | refl => exact h
  | tail h1 h2 ih => exact Reachable.step ih h2

lemma processed_mono {s t : ContractState} (rid : Nat) (hinv : Inv s) (hs : Step s t)
    (hp : (s.decryptionContexts rid).processed = true) :
    (t.decryptionContexts rid).processed = true := by
  cases hs with
  | ofTransferOwnership a n =>
    rw [(transferOwnership_ledger a n s).2.2.1]
    exact hp
  | ofAddProvider a p =>
    rw [(addProvider_ledger a p s).2.2.1]
    exact hp
  | ofRemoveProvider a p =>
    rw [(removeProvider_ledger a p s).2.2.1]
    exact hp
  | ofSetPaused a b =>
    rw [(setPaused_ledger a b s).2.2.1]
    exact hp
  | ofSetCooldownSeconds a c =>
    rw [(setCooldownSeconds_ledger a c s).2.2.1]
    exact hp
  | ofOpenBatch a =>
    have hdcx : ((openBatch a s).1).decryptionContexts = s.decryptionContexts := by
      rcases openBatch_cases a s with heq | ⟨_, heq⟩ <;> rw [heq]
    rw [hdcx]
    exact hp
  | ofCloseBatch a =>
    have hdcx : ((closeBatch a s).1).decryptionContexts = s.decryptionContexts := by
      rcases closeBatch_cases a s with heq | ⟨_, heq⟩ <;> rw [heq]
    rw [hdcx]
    exact hp
  | ofSubmitData a n v t =>
    have hdcx : ((submitData a n s v t).1).decryptionContexts = s.decryptionContexts := by
      rcases submitData_cases a n v t s with heq | ⟨_, heq⟩ <;> rw [heq]
    rw [hdcx]
    exact hp
  | ofRequestBatchDecryption a n b =>
    rcases requestBatchDecryption_cases a n b s with heq | heq
    · rw [heq]
      exact hp
    · have hlt : rid < s.nextRequestId := by
        by_contra hge
        have hd := hinv.2 rid (by omega)
        rw [hd] at hp
        simp [defaultContext] at hp
      have hkeep : ((requestBatchDecryption a n s b).1).decryptionContexts rid =
          s.decryptionContexts rid := by
        rw [heq]
        exact if_neg (by omega)
      rw [hkeep]
      exact hp
  | ofMyCallback chk r c p =>
    rcases myCallback_cases chk s r c p with heq | ⟨hpr, hbid, heq⟩
    · rw [heq]
      exact hp
    · have hupd : ((myCallback chk s r c p).1).decryptionContexts rid =
          if rid = r then { s.decryptionContexts r with processed := true }
          else s.decryptionContexts rid := by
        rw [heq]
      rw [hupd]
      by_cases hc : rid = r
      · rw [if_pos hc]
      · rw [if_neg hc]
        exact hp

lemma processed_mono_steps {s t : ContractState} (rid : Nat) (hr : Reachable s)
    (hs : Steps s t) (hp : (s.decryptionContexts rid).processed = true) :
    (t.decryptionContexts rid).processed = true := by
  induction hs with
  | refl => exact hp
  | tail h1 h2 ih =>
    exact processed_mono rid (reachable_inv (steps_reachable hr h1)) h2 ih

lemma myCallback_success_processed {chk : Nat → Nat × Nat → Nat → Bool}
    {s : ContractState} {rid : Nat} {c : Nat × Nat} {p : Nat}
    (hsucc : (myCallback chk s rid c p).2 = none) :
    (((myCallback chk s rid c p).1).decryptionContexts rid).processed = true := by
  by_cases h1 : (s.decryptionContexts rid).processed = true
  · simp [myCallback, h1] at hsucc
  · by_cases h2 : (s.decryptionContexts rid).batchId = 0 ∨
        s.currentBatchId < (s.decryptionContexts rid).batchId
    · simp [myCallback, h1, h2] at hsucc
    · by_cases h3 : hashCiphertexts
          [(s.batches (s.decryptionContexts rid).batchId).encryptedTotalVibration,
           (s.batches (s.decryptionContexts rid).batchId).encryptedMaxTemperature]
          s.selfAddr = (s.decryptionContexts rid).stateHash
      · by_cases h4 : chk rid c p = true
        · simp [myCallback, h1, h2, h3, h4]
        · simp [myCallback, h1, h2, h3, h4] at hsucc
      · simp [myCallback, h1, h2, h3] at hsucc

/-- C4: from any reachable state, once a `myCallback` call for a request id
succeeds, the context's `processed` flag is true and stays true across every
later sequence of operations, and every later `myCallback` call with the
same request id fails with `ReplayAttempt` and returns the state unchanged —
the flag transitions false to true exactly once and never back. -/
theorem callback_replay_protection {s t : ContractState}
    (chk : Nat → Nat × Nat → Nat → Bool) (rid : Nat) (c : Nat × Nat) (p : Nat)
    (hr : Reachable s) (hsucc : (myCallback chk s rid c p).2 = none)
    (ht : Steps (myCallback chk s rid c p).1 t) :
    (t.decryptionContexts rid).processed = true ∧
    ∀ chk2 c2 p2, myCallback chk2 t rid c2 p2 = (t, some Err.ReplayAttempt) := by
  have h1 := myCallback_success_processed hsucc
  have hr1 : Reachable (myCallback chk s rid c p).1 :=
    Reachable.step hr (Step.ofMyCallback chk rid c p)
  have hpt := processed_mono_steps rid hr1 ht h1
  exact ⟨hpt, fun chk2 c2 p2 => by simp [myCallback, hpt]⟩

lemma reachable_demoRequested : Reachable demoRequested :=
  Reachable.step
    (Reachable.step
      (Reachable.step
        (Reachable.step (Reachable.deploy 1 7) (Step.ofAddProvider 1 2))
        (Step.ofOpenBatch 1))
      (Step.ofCloseBatch 1))
    (Step.ofRequestBatchDecryption 1 100 1)

/-- Witness for `callback_replay_protection`: the successful completion of
request id 1 on the demo contract makes an immediate second callback for the
same id fail with `ReplayAttempt`. -/
theorem callback_replay_protection_witness :
    (demoCompleted.decryptionContexts 1).processed = true ∧
    myCallback chkFalse demoCompleted 1 (5, 6) 7 = (demoCompleted, some Err.ReplayAttempt) :=
  ⟨(callback_replay_protection chkTrue 1 (0, 0) 0 reachable_demoRequested (by decide)
      Steps.refl).1,
    (callback_replay_protection chkTrue 1 (0, 0) 0 reachable_demoRequested (by decide)
      Steps.refl).2 chkFalse (5, 6) 7⟩

/-- C8: in every reachable state the batch-ledger invariant holds — slots
`1 .. currentBatchId` hold batches whose `id` equals their index, every other
slot is still the default record (so ids are assigned in strictly increasing
order starting at 1 and `currentBatchId` counts the allocated batches), and
at most one batch is open — and `openBatch`, `closeBatch` and `submitData`
each preserve the invariant. -/
theorem reachable_batch_invariants {s : ContractState} (h : Reachable s) :
    BatchInv s ∧
    (∀ i j, (s.batches i).isOpen = true → (s.batches j).isOpen = true → i = j) ∧
    (∀ a, BatchInv ((openBatch a s).1)) ∧
    (∀ a, BatchInv ((closeBatch a s).1)) ∧
    ∀ a n v t, BatchInv ((submitData a n s v t).1) := by
  have hinv := reachable_inv h
  refine ⟨hinv.1, fun i j hi hj => ?_, fun a => (inv_openBatch a hinv).1,
    fun a => (inv_closeBatch a hinv).1, fun a n v t => (inv_submitData a n v t hinv).1⟩
  rw [hinv.1.2.2 i hi, hinv.1.2.2 j hj]

/-- Witness for `reachable_batch_invariants` on the demo contract with
batch 1 open. -/
theorem reachable_batch_invariants_witness :
    BatchInv demoOpen ∧ demoOpen.currentBatchId = 1 ∧ (demoOpen.batches 1).isOpen = true :=
  ⟨(reachable_batch_invariants
      (Reachable.step
        (Reachable.step (Reachable.deploy 1 7) (Step.ofAddProvider 1 2))
        (Step.ofOpenBatch 1))).1,
    by decide, by decide⟩

end EnergyMaintenanceFHE
